import Mathlib

/-!
Shallow embedding of the `rmachine` instruction-set simulator
(`src/lib.rs`) and proofs of the specification's claims about it.

Modelling conventions:
* `u32` values become `Nat` with explicit `% 2^32` wherever the Rust
  code performs wrapping `u32` arithmetic (`pc + 4`, `addr + offset`,
  `rs1 + rs2 + imm`); `u8` values become `Nat` (the `HashMap` stores
  bytes, which are already in range when produced by Rust's type system).
* A `HashMap` becomes an association list whose `lookup` finds the most
  recent insertion; `insert` is modelled by consing, which shadows any
  earlier binding exactly as `HashMap::insert` overwrites it.
* `Memory::get` and `Memory::read` take `&self` in Rust; they are
  embedded in state-passing style (returning the resulting `Memory` next
  to the value) so that the spec's "reading never mutates the mapping"
  becomes a provable statement rather than a typing convention.
* The output sink (`stdout : Option<W>` with `write_all` calls) is
  embedded as an optional list of append-call payloads: each executed
  `write_all` appends one element (the byte list passed to it), so
  "exactly one append call per Write syscall" is observable.
* Fallible conversions (`TryFrom`) become `Except Error`; the `?`
  operator becomes the explicit error-propagating `match`.
* The `run` loop is embedded with explicit fuel; `RunResult.timeout`
  marks fuel exhaustion and corresponds to no Rust behaviour (the Rust
  loop simply keeps running).
* `assert_eq!(fd, 1, ...)` (a process abort, not a `Result` error) is
  embedded as the distinguished outcome `StepResult.abort`.
-/

namespace RMachine

/-- Word: `type Word = u32`. -/
abbrev Word := Nat

/-- Address: `type Address = u32`. -/
abbrev Address := Nat

/-- Error: the `enum Error` of decode/dispatch failures. Rust's
`ImmediateValue(TryFromIntError)` payload is an opaque unit-like value
and is dropped. -/
inductive Error where
  | OpcodeUnknown (w : Word)
  | RegisterUnknown (w : Word)
  | SyscallUnknown (w : Word)
  | ImmediateValue
  deriving DecidableEq, Repr

/-- RegisterID: the closed 16-element register-name enumeration. -/
inductive RegisterID where
  | X0 | A0 | A1 | A2 | A3 | A4 | A5 | A6 | A7
  | A8 | A9 | A10 | A11 | A12 | RA | SP
  deriving DecidableEq, Repr, Fintype

/-- Opcode: the closed 4-element opcode enumeration. -/
inductive Opcode where
  | LoadImmediate | Add | ECall | EBreak
  deriving DecidableEq, Repr

/-- Syscall: the closed syscall enumeration (only `Write`). -/
inductive Syscall where
  | Write
  deriving DecidableEq, Repr

/-- Memory: `struct Memory { inner: HashMap<Address, u8> }`, with the
map embedded as an association list (most recent binding first). -/
structure Memory where
  inner : List (Address × Nat)
  deriving DecidableEq, Repr

/-- Memory.get: `*self.inner.get(&addr).unwrap_or(&u8::default())`.
State-passing embedding of a `&self` method: the returned `Memory` is
the (unchanged) receiver. -/
def Memory.get (m : Memory) (addr : Address) : Nat × Memory :=
  match m.inner.lookup addr with
  | some b => (b, m)
  | none => (0, m)

/-- Memory.readFrom: the body of `Memory::read`'s `for offset in 0..len`
loop, threading the memory through each `get`; `addr + offset as u32`
is wrapping `u32` addition. -/
def Memory.readFrom (m : Memory) (addr : Address) (offset : Nat) :
    Nat → List Nat × Memory
  | 0 => ([], m)
  | n + 1 =>
    let r := m.get ((addr + offset) % 2 ^ 32)
    let rest := r.2.readFrom addr (offset + 1) n
    (r.1 :: rest.1, rest.2)

/-- Memory.read: `read(addr, len)` pushes `get(addr + offset)` for each
`offset in 0..len`. -/
def Memory.read (m : Memory) (addr : Address) (len : Nat) :
    List Nat × Memory :=
  m.readFrom addr 0 len

/-- Registers: `struct Registers { inner: HashMap<RegisterID, Word> }`. -/
structure Registers where
  inner : List (RegisterID × Word)
  deriving DecidableEq, Repr

/-- Registers.get: `*self.inner.get(reg).unwrap_or(&Word::default())`.
A pure read (`&self`), so embedded as a plain function. -/
def Registers.get (rs : Registers) (reg : RegisterID) : Word :=
  match rs.inner.lookup reg with
  | some v => v
  | none => 0

/-- Registers.set: forces the stored value to 0 when the target is `X0`,
then `self.inner.insert(reg, value)` (consing shadows the old binding). -/
def Registers.set (rs : Registers) (reg : RegisterID) (value : Word) :
    Registers :=
  let value := match reg with
    | RegisterID.X0 => 0
    | _ => value
  ⟨(reg, value) :: rs.inner⟩

/-- Opcode.tryFrom: `impl TryFrom<Word> for Opcode` (match arms in source
order). -/
def Opcode.tryFrom (word : Word) : Except Error Opcode :=
  if word = 0b00001 then .ok .LoadImmediate
  else if word = 0b00010 then .ok .Add
  else if word = 0b10111 then .ok .ECall
  else if word = 0b11000 then .ok .EBreak
  else .error (.OpcodeUnknown word)

/-- RegisterID.tryFrom: `impl TryFrom<Word> for RegisterID` (match arms
in source order). -/
def RegisterID.tryFrom (word : Word) : Except Error RegisterID :=
  if word = 0b0000 then .ok .X0
  else if word = 0b0001 then .ok .A0
  else if word = 0b0010 then .ok .A1
  else if word = 0b0011 then .ok .A2
  else if word = 0b0100 then .ok .A3
  else if word = 0b0101 then .ok .A4
  else if word = 0b0110 then .ok .A5
  else if word = 0b0111 then .ok .A6
  else if word = 0b1000 then .ok .A7
  else if word = 0b1001 then .ok .A8
  else if word = 0b1010 then .ok .A9
  else if word = 0b1011 then .ok .A10
  else if word = 0b1100 then .ok .A11
  else if word = 0b1101 then .ok .A12
  else if word = 0b1110 then .ok .RA
  else if word = 0b1111 then .ok .SP
  else .error (.RegisterUnknown word)

/-- Syscall.tryFrom: `impl TryFrom<Word> for Syscall` (only 64 maps to
`Write`). -/
def Syscall.tryFrom (word : Word) : Except Error Syscall :=
  if word = 64 then .ok .Write
  else .error (.SyscallUnknown word)

/-- Instruction: opcode + rd/rs1/rs2 + 16-bit immediate carrier
(`imm: u16`, embedded as `Nat`). -/
structure Instruction where
  opcode : Opcode
  rd : RegisterID
  rs1 : RegisterID
  rs2 : RegisterID
  imm : Nat
  deriving DecidableEq, Repr

/-- Instruction.tryFrom: `impl TryFrom<Word> for Instruction`.
Field extraction: `word & 0x1f` is `word % 32`, `(word >> k) & 0xf` is
`word / 2^k % 16`, `word >> 17` is `word / 2^17`; the `u32 → u16`
`try_into` for the immediate succeeds exactly when the value is below
`2^16`. Each `?` is the explicit error-propagating match. -/
def Instruction.tryFrom (word : Word) : Except Error Instruction :=
  Except.bind (Opcode.tryFrom (word % 32)) fun opcode =>
    Except.bind (RegisterID.tryFrom (word / 2 ^ 5 % 16)) fun rd =>
      Except.bind (RegisterID.tryFrom (word / 2 ^ 9 % 16)) fun rs1 =>
        Except.bind (RegisterID.tryFrom (word / 2 ^ 13 % 16)) fun rs2 =>
          if word / 2 ^ 17 < 2 ^ 16 then
            .ok ⟨opcode, rd, rs1, rs2, word / 2 ^ 17⟩
          else
            .error .ImmediateValue

/-- Machine: pc + memory + registers + optional output sink. The sink
is the list of byte sequences handed to `write_all`, one entry per call. -/
structure Machine where
  pc : Word
  mem : Memory
  regs : Registers
  stdout : Option (List (List Nat))
  deriving DecidableEq, Repr

/-- fromBeBytes: `u32::from_be_bytes([b1, b2, b3, b4])`. -/
def fromBeBytes (b1 b2 b3 b4 : Nat) : Word :=
  b1 * 2 ^ 24 + b2 * 2 ^ 16 + b3 * 2 ^ 8 + b4

/-- Machine.next: fetch the four bytes at `pc..pc+3` (wrapping `u32`
address arithmetic), assemble them big-endian, and decode. The memory
reads are threaded in state-passing style, mirroring the `&mut self`
receiver. -/
def Machine.next (m : Machine) : Except Error Instruction × Machine :=
  let r1 := m.mem.get m.pc
  let r2 := r1.2.get ((m.pc + 1) % 2 ^ 32)
  let r3 := r2.2.get ((m.pc + 2) % 2 ^ 32)
  let r4 := r3.2.get ((m.pc + 3) % 2 ^ 32)
  let word := fromBeBytes r1.1 r2.1 r3.1 r4.1
  (Instruction.tryFrom word, { m with mem := r4.2 })

/-- StepResult: the outcome of one iteration of the `run` loop body.
`ok` continues the loop, `halt` is the `EBreak` `break`, `fault` is an
error propagated by `?`, and `abort` is the `assert_eq!(fd, 1, ...)`
panic. -/
inductive StepResult where
  | ok (m : Machine)
  | halt (m : Machine)
  | fault (e : Error) (m : Machine)
  | abort (m : Machine)
  deriving DecidableEq, Repr

/-- Machine.step: one iteration of the `run` loop: `next()?`, then
`pc += 4` (wrapping), then dispatch on the opcode. `Add` uses wrapping
`u32` addition (`% 2^32`); `LoadImmediate` zero-extends `imm as Word`;
`ECall` resolves `A7` through `Syscall.tryFrom` (`?`), asserts `fd = 1`,
reads `len` bytes at the `A1` address, and appends them to the sink in
one `write_all` call when a sink is attached. -/
def Machine.step (m : Machine) : StepResult :=
  match m.next with
  | (.error e, m') => .fault e m'
  | (.ok instruction, m') =>
    let m1 : Machine := { m' with pc := (m'.pc + 4) % 2 ^ 32 }
    match instruction.opcode with
    | .LoadImmediate =>
      .ok { m1 with regs := m1.regs.set instruction.rd instruction.imm }
    | .Add =>
      let rs1 := m1.regs.get instruction.rs1
      let rs2 := m1.regs.get instruction.rs2
      let imm := instruction.imm
      .ok { m1 with
            regs := m1.regs.set instruction.rd ((rs1 + rs2 + imm) % 2 ^ 32) }
    | .ECall =>
      match Syscall.tryFrom (m1.regs.get .A7) with
      | .error e => .fault e m1
      | .ok .Write =>
        let fd := m1.regs.get .A0
        if fd = 1 then
          let bufAddr := m1.regs.get .A1
          let len := m1.regs.get .A2
          let r := m1.mem.read bufAddr len
          let m2 : Machine := { m1 with mem := r.2 }
          match m2.stdout with
          | some calls => .ok { m2 with stdout := some (calls ++ [r.1]) }
          | none => .ok m2
        else
          .abort m1
    | .EBreak => .halt m1

/-- RunResult: what `Machine::run` can produce: `ok` is `Ok(())` (with
the final machine state), `err` is `Err(e)`, `abort` is the `assert_eq!`
panic, and `timeout` is fuel exhaustion of the embedding (the Rust loop
would keep running). -/
inductive RunResult where
  | ok (m : Machine)
  | err (e : Error) (m : Machine)
  | abort (m : Machine)
  | timeout (m : Machine)
  deriving DecidableEq, Repr

/-- Machine.run: the fetch-decode-execute loop, with explicit fuel. -/
def Machine.run : Nat → Machine → RunResult
  | 0, m => .timeout m
  | fuel + 1, m =>
    match m.step with
    | .ok m' => Machine.run fuel m'
    | .halt m' => .ok m'
    | .fault e m' => .err e m'
    | .abort m' => .abort m'

/-- Decidable equality of `Except` results, so that concrete decoder
outcomes can be settled by `decide`. -/
instance {ε α : Type} [DecidableEq ε] [DecidableEq α] :
    DecidableEq (Except ε α) := fun a b =>
  match a, b with
  | .ok x, .ok y =>
    if h : x = y then .isTrue (by rw [h])
    else .isFalse (fun hc => h (by cases hc; rfl))
  | .error x, .error y =>
    if h : x = y then .isTrue (by rw [h])
    else .isFalse (fun hc => h (by cases hc; rfl))
  | .ok _, .error _ => .isFalse (fun hc => Except.noConfusion hc)
  | .error _, .ok _ => .isFalse (fun hc => Except.noConfusion hc)

/-- Registers.default: `Registers::default()` (empty map). -/
def Registers.default : Registers := ⟨[]⟩

/-! ### Concrete machines used by the claims -/

/-- The LoadImmediate(rd=A0, imm=2) + EBreak program of the claim about
running a two-instruction machine: big-endian bytes of the word
`0x00040021` (= LoadImmediate, rd=A0, imm=2) at addresses 0–3 and of
the EBreak word `0x18` at addresses 4–7. -/
def liMachine : Machine :=
  ⟨0, ⟨[(0, 0x00), (1, 0x04), (2, 0x00), (3, 0x21),
        (4, 0x00), (5, 0x00), (6, 0x00), (7, 0x18)]⟩, ⟨[]⟩, none⟩

/-- A machine whose first instruction is ECall (word `0x17`, bytes at
unlisted addresses read as 0) while register A7 reads its default 0:
resolving the syscall number fails with `SyscallUnknown 0`. -/
def ecallFaultMachine : Machine :=
  ⟨0, ⟨[(3, 0x17)]⟩, ⟨[]⟩, none⟩

/-- The Write-syscall machine of the hello test: ECall at 0–3, EBreak at
4–7, the bytes of `"hello"` at 8–12; registers fd=A0=1, buffer=A1=8,
length=A2=5, syscall number A7=64; an attached sink with no calls yet. -/
def helloMachine : Machine :=
  ⟨0, ⟨[(3, 0x17), (7, 0x18),
        (8, 104), (9, 101), (10, 108), (11, 108), (12, 111)]⟩,
   ⟨[(.A0, 1), (.A1, 8), (.A2, 5), (.A7, 64)]⟩, some []⟩

/-! ### Basic computation lemmas -/

/-- Error propagation (`?`) short-circuits. -/
theorem bind_error_eq {ε α β : Type} (e : ε) (f : α → Except ε β) :
    Except.bind (.error e) f = .error e := rfl

/-- Error propagation (`?`) passes a success through. -/
theorem bind_ok_eq {ε α β : Type} (a : α) (f : α → Except ε β) :
    Except.bind (.ok a) f = f a := rfl

/-! ### Basic preservation lemmas: reads never mutate state -/

/-- Reading one byte returns the receiver unchanged: `Memory::get` takes
`&self` and `HashMap::get` with `unwrap_or` never inserts. -/
theorem Memory.get_snd (m : Memory) (addr : Address) : (m.get addr).2 = m := by
  unfold Memory.get
  cases m.inner.lookup addr <;> rfl

/-- The read loop returns the receiver unchanged. -/
theorem Memory.readFrom_snd (m : Memory) (addr : Address) (offset n : Nat) :
    (m.readFrom addr offset n).2 = m := by
  induction n generalizing m offset with
  | zero => rfl
  | succ k ih => simp [Memory.readFrom, Memory.get_snd, ih]

/-- `Memory::read` returns the receiver unchanged. -/
theorem Memory.read_snd (m : Memory) (addr : Address) (len : Nat) :
    (m.read addr len).2 = m :=
  Memory.readFrom_snd m addr 0 len

/-- Fetch+decode leaves the machine unchanged (it only reads memory). -/
theorem Machine.next_snd (m : Machine) : m.next.2 = m := by
  simp [Machine.next, Memory.get_snd]

/-! ### Claim theorems -/

/-- Claim C1: running a Machine preloaded with only
LoadImmediate(rd=A0, imm=2) followed by EBreak terminates successfully,
leaves A0 = 2 and every other register reading 0, and leaves the
program counter at 8, one instruction width past the EBreak: the
counter is advanced before the halt is observed. -/
theorem run_li_ebreak :
    ∃ mf : Machine, Machine.run 10 liMachine = .ok mf ∧ mf.pc = 8 ∧
      ∀ r : RegisterID, mf.regs.get r = if r = .A0 then 2 else 0 := by
  refine ⟨⟨8, liMachine.mem, ⟨[(.A0, 2)]⟩, none⟩, ?_, rfl, ?_⟩
  · decide
  · decide

/-- Claim C3: for every word whose low 5 bits are none of the four
defined opcode encodings, decoding fails with the Unknown-opcode error
carrying exactly that low-5-bit value — with no condition on the
remaining 27 bits, so the opcode field is validated before any register
or immediate field. -/
theorem decode_unknown_opcode (word : Word)
    (h1 : word % 32 ≠ 0b00001) (h2 : word % 32 ≠ 0b00010)
    (h3 : word % 32 ≠ 0b10111) (h4 : word % 32 ≠ 0b11000) :
    Instruction.tryFrom word = .error (.OpcodeUnknown (word % 32)) := by
  have ho : Opcode.tryFrom (word % 32) =
      .error (.OpcodeUnknown (word % 32)) := by
    simp [Opcode.tryFrom, h1, h2, h3, h4]
  unfold Instruction.tryFrom
  rw [ho, bind_error_eq]

/-- Witness for the unknown-opcode claim at word 3 (low 5 bits 0b00011,
not a defined opcode). -/
theorem decode_unknown_opcode_witness :
    Instruction.tryFrom 3 = .error (.OpcodeUnknown (3 % 32)) :=
  decode_unknown_opcode 3 (by decide) (by decide) (by decide) (by decide)

/-- Setting any register leaves `X0` reading 0 when it read 0 before:
a write to `X0` stores 0, and a write elsewhere does not touch the `X0`
binding. -/
theorem Registers.set_get_x0 (rs : Registers) (reg : RegisterID)
    (v : Word) :
    (rs.set reg v).get .X0 = if reg = .X0 then 0 else rs.get .X0 := by
  cases reg <;> rfl

/-- Folding any list of set operations over a register file with
`X0` reading 0 keeps `X0` reading 0. -/
theorem Registers.foldl_set_x0 (ops : List (RegisterID × Word)) :
    ∀ rs : Registers, rs.get .X0 = 0 →
      (ops.foldl (fun a p => a.set p.1 p.2) rs).get .X0 = 0 := by
  induction ops with
  | nil => exact fun rs h => h
  | cons p rest ih =>
    intro rs h
    simp only [List.foldl_cons]
    apply ih
    rcases eq_or_ne p.1 RegisterID.X0 with h1 | h1 <;>
      simp [Registers.set_get_x0, h1, h]

/-- Claim C4: after any finite sequence of `set` operations with
arbitrary register identifiers and values, starting from the default
register file, `get X0` returns 0: a set targeting `X0` is accepted
(set is total and never fails) but never makes a nonzero value
observable through `get`. -/
theorem set_sequence_x0_zero (ops : List (RegisterID × Word)) :
    (ops.foldl (fun a p => a.set p.1 p.2) Registers.default).get .X0 = 0 :=
  Registers.foldl_set_x0 ops Registers.default rfl

/-- Claim C7: for an address never present in the Memory mapping, `get`
returns 0; and both `get` and `read` return the memory unchanged (no
default value is ever inserted as a side effect of a read), so
subsequent reads are unaffected by prior reads. -/
theorem memory_reads_pure (mem : Memory) (addr : Address) (len : Nat) :
    (mem.inner.lookup addr = none → (mem.get addr).1 = 0) ∧
    (mem.get addr).2 = mem ∧ (mem.read addr len).2 = mem := by
  refine ⟨fun h => ?_, Memory.get_snd mem addr, Memory.read_snd mem addr len⟩
  unfold Memory.get
  rw [h]

/-- Witness for the pure-reads claim on the empty memory at address 7
with length 3. -/
theorem memory_reads_pure_witness :
    (Memory.get ⟨[]⟩ 7).1 = 0 ∧ (Memory.get ⟨[]⟩ 7).2 = (⟨[]⟩ : Memory) ∧
    (Memory.read ⟨[]⟩ 7 3).2 = (⟨[]⟩ : Memory) :=
  ⟨(memory_reads_pure ⟨[]⟩ 7 3).1 rfl, (memory_reads_pure ⟨[]⟩ 7 3).2.1,
   (memory_reads_pure ⟨[]⟩ 7 3).2.2⟩

/-- Claim C2: decoding `0b0000_0000_0000_0100_0000_0000_0010_0001`
yields LoadImmediate with rd=A0, rs1=X0, rs2=X0, imm=2, and decoding
`0b0000_0000_0000_0000_0110_0100_0010_0010` yields Add with rd=A0,
rs1=A1, rs2=A2, imm=0, per the fixed bit layout (opcode bits 0–4, rd
5–8, rs1 9–12, rs2 13–16, imm 17–31). -/
theorem decode_li_add_examples :
    Instruction.tryFrom 0x00040021 =
      .ok ⟨.LoadImmediate, .A0, .X0, .X0, 2⟩ ∧
    Instruction.tryFrom 0x00006422 =
      .ok ⟨.Add, .A0, .A1, .A2, 0⟩ :=
  ⟨rfl, rfl⟩

/-- Every value below 16 converts to some RegisterID. -/
theorem RegisterID.tryFrom_lt (v : Nat) (h : v < 16) :
    ∃ r, RegisterID.tryFrom v = .ok r := by
  interval_cases v <;> exact ⟨_, rfl⟩

/-- An opcode conversion failure always carries the offending value. -/
theorem Opcode.tryFrom_error_opcode (w : Word) (e : Error)
    (h : Opcode.tryFrom w = .error e) : e = .OpcodeUnknown w := by
  unfold Opcode.tryFrom at h
  split_ifs at h
  simp_all

/-- A syscall conversion failure always carries the offending value. -/
theorem Syscall.tryFrom_error_syscall (w : Word) (e : Error)
    (h : Syscall.tryFrom w = .error e) : e = .SyscallUnknown w := by
  unfold Syscall.tryFrom at h
  split_ifs at h
  simp_all

/-- Shape of decode errors: a failed decode carries either the unknown
opcode (with exactly the low 5 bits) or the immediate failure; register
conversion never fails because the fields are masked to 4 bits. -/
theorem Instruction.tryFrom_error_shape (word : Word) (e : Error)
    (h : Instruction.tryFrom word = .error e) :
    e = .OpcodeUnknown (word % 32) ∨ e = .ImmediateValue := by
  obtain ⟨rd, hrd⟩ :=
    RegisterID.tryFrom_lt (word / 2 ^ 5 % 16) (Nat.mod_lt _ (by norm_num))
  obtain ⟨rs1, hrs1⟩ :=
    RegisterID.tryFrom_lt (word / 2 ^ 9 % 16) (Nat.mod_lt _ (by norm_num))
  obtain ⟨rs2, hrs2⟩ :=
    RegisterID.tryFrom_lt (word / 2 ^ 13 % 16) (Nat.mod_lt _ (by norm_num))
  unfold Instruction.tryFrom at h
  cases ho : Opcode.tryFrom (word % 32) with
  | error e0 =>
    rw [ho, bind_error_eq] at h
    injection h with h1
    left
    rw [← h1]
    exact Opcode.tryFrom_error_opcode _ _ ho
  | ok opcode =>
    rw [ho, bind_ok_eq, hrd, bind_ok_eq, hrs1, bind_ok_eq, hrs2,
      bind_ok_eq] at h
    by_cases himm : word / 2 ^ 17 < 2 ^ 16
    · rw [if_pos himm] at h
      exact Except.noConfusion h
    · rw [if_neg himm] at h
      injection h with h1
      right
      exact h1.symm

/-- Shape of decode results for genuine 32-bit words: either success, or
the unknown-opcode error carrying the low 5 bits. -/
theorem Instruction.tryFrom_shape (word : Word) (hw : word < 2 ^ 32) :
    (∃ i, Instruction.tryFrom word = .ok i) ∨
      Instruction.tryFrom word = .error (.OpcodeUnknown (word % 32)) := by
  obtain ⟨rd, hrd⟩ :=
    RegisterID.tryFrom_lt (word / 2 ^ 5 % 16) (Nat.mod_lt _ (by norm_num))
  obtain ⟨rs1, hrs1⟩ :=
    RegisterID.tryFrom_lt (word / 2 ^ 9 % 16) (Nat.mod_lt _ (by norm_num))
  obtain ⟨rs2, hrs2⟩ :=
    RegisterID.tryFrom_lt (word / 2 ^ 13 % 16) (Nat.mod_lt _ (by norm_num))
  have himm : word / 2 ^ 17 < 2 ^ 16 :=
    Nat.div_lt_of_lt_mul (lt_of_lt_of_le hw (by norm_num))
  unfold Instruction.tryFrom
  cases ho : Opcode.tryFrom (word % 32) with
  | error e0 =>
    right
    rw [bind_error_eq, Opcode.tryFrom_error_opcode _ _ ho]
  | ok opcode =>
    left
    rw [bind_ok_eq, hrd, bind_ok_eq, hrs1, bind_ok_eq, hrs2,
      bind_ok_eq, if_pos himm]
    exact ⟨_, rfl⟩

/-- Claim C8: the 4-bit register space converts bijectively — every
value 0–15 converts successfully, and every RegisterID is hit by exactly
one 4-bit value — and, since decode masks every register field to 4
bits, decoding a 32-bit word never returns the Unknown-register error. -/
theorem register_decoding_total :
    ((∀ v : Fin 16, ∃ r, RegisterID.tryFrom v.val = .ok r) ∧
     (∀ r : RegisterID, ∃ v : Fin 16, RegisterID.tryFrom v.val = .ok r ∧
        ∀ u : Fin 16, RegisterID.tryFrom u.val = .ok r → u = v)) ∧
    ∀ word : Word, word < 2 ^ 32 → ∀ w : Word,
      Instruction.tryFrom word ≠ .error (.RegisterUnknown w) := by
  refine ⟨⟨by decide, by decide⟩, fun word hw w hcontra => ?_⟩
  rcases Instruction.tryFrom_error_shape word _ hcontra with h | h <;>
    exact Error.noConfusion h

/-- Witness for the register-decoding claim: decoding the all-ones
32-bit word is not a register error. -/
theorem register_decoding_total_witness :
    Instruction.tryFrom 0xffffffff ≠ .error (.RegisterUnknown 15) :=
  register_decoding_total.2 0xffffffff (by norm_num) 15

/-- Claim C10: for every 32-bit word the extracted immediate
`word >> 17` is at most `2^15 - 1`, hence fits the 16-bit immediate
carrier, and decode never returns the immediate-conversion error. -/
theorem immediate_error_unreachable (word : Word) (hw : word < 2 ^ 32) :
    word / 2 ^ 17 ≤ 2 ^ 15 - 1 ∧
      Instruction.tryFrom word ≠ .error .ImmediateValue := by
  have h15 : word / 2 ^ 17 < 2 ^ 15 :=
    Nat.div_lt_of_lt_mul (lt_of_lt_of_le hw (by norm_num))
  refine ⟨Nat.le_pred_of_lt h15, fun hcontra => ?_⟩
  rcases Instruction.tryFrom_shape word hw with ⟨i, hi⟩ | hno
  · rw [hi] at hcontra
    exact Except.noConfusion hcontra
  · rw [hno] at hcontra
    injection hcontra with h1
    exact Error.noConfusion h1

/-- Witness for the immediate claim at the all-ones 32-bit word. -/
theorem immediate_error_unreachable_witness :
    (0xffffffff : Word) / 2 ^ 17 ≤ 2 ^ 15 - 1 ∧
      Instruction.tryFrom 0xffffffff ≠ .error .ImmediateValue :=
  immediate_error_unreachable 0xffffffff (by norm_num)

/-- Claim C9: executing an Add instruction sets rd to
rs1_value + rs2_value + zero_extend(imm) in wrapping 32-bit unsigned
arithmetic; for every machine state (hence every pair of operand values
and immediate) the step completes normally — no overflow error exists. -/
theorem add_wraps (m : Machine) (instruction : Instruction) (m' : Machine)
    (hnext : m.next = (.ok instruction, m'))
    (hop : instruction.opcode = .Add) :
    m.step = .ok { m with
      pc := (m.pc + 4) % 2 ^ 32,
      regs := m.regs.set instruction.rd
        ((m.regs.get instruction.rs1 + m.regs.get instruction.rs2 +
          instruction.imm) % 2 ^ 32) } := by
  have hm' : m = m' := by
    have h2 := Machine.next_snd m
    rw [hnext] at h2
    exact h2.symm
  subst hm'
  obtain ⟨op, rdf, rs1f, rs2f, immf⟩ := instruction
  dsimp only at hop
  subst hop
  unfold Machine.step
  rw [hnext]

/-- Witness for the Add claim: adding 4294967295 (the all-ones word)
in A1 to 3 in A2 with imm 0 completes normally and stores the wrapped
sum 2 in A0. -/
theorem add_wraps_witness :
    Machine.step
        ⟨0, ⟨[(2, 0x64), (3, 0x22)]⟩,
         ⟨[(.A1, 4294967295), (.A2, 3)]⟩, none⟩ =
      .ok { (⟨0, ⟨[(2, 0x64), (3, 0x22)]⟩,
             ⟨[(.A1, 4294967295), (.A2, 3)]⟩, none⟩ : Machine) with
            pc := 4,
            regs := Registers.set ⟨[(.A1, 4294967295), (.A2, 3)]⟩ .A0 2 } := by
  have h := add_wraps
    ⟨0, ⟨[(2, 0x64), (3, 0x22)]⟩, ⟨[(.A1, 4294967295), (.A2, 3)]⟩, none⟩
    ⟨.Add, .A0, .A1, .A2, 0⟩
    ⟨0, ⟨[(2, 0x64), (3, 0x22)]⟩, ⟨[(.A1, 4294967295), (.A2, 3)]⟩, none⟩
    (by decide) rfl
  exact h.trans (by decide)

/-- Claim C6: a step executing an ECall whose syscall register A7 holds
64 (Write) with file-descriptor register A0 = 1 completes normally,
reads the buffer address from A1 and the length from A2, reads exactly
that many consecutive bytes from Memory starting at the buffer address,
and appends exactly those bytes, in order, as exactly one new call on
the attached sink; with no sink attached (`stdout = none`,
`Option.map` keeps `none`) the write is silently discarded and no
error is raised. -/
theorem ecall_write_appends (m : Machine) (instruction : Instruction)
    (m' : Machine)
    (hnext : m.next = (.ok instruction, m'))
    (hop : instruction.opcode = .ECall)
    (hA7 : m.regs.get .A7 = 64)
    (hfd : m.regs.get .A0 = 1) :
    m.step = .ok { m with
      pc := (m.pc + 4) % 2 ^ 32,
      stdout := m.stdout.map (fun calls =>
        calls ++ [(m.mem.read (m.regs.get .A1) (m.regs.get .A2)).1]) } := by
  have hm' : m = m' := by
    have h2 := Machine.next_snd m
    rw [hnext] at h2
    exact h2.symm
  subst hm'
  obtain ⟨pc, mem, regs, out⟩ := m
  obtain ⟨op, rdf, rs1f, rs2f, immf⟩ := instruction
  dsimp only at hop hA7 hfd
  subst hop
  cases out with
  | none =>
    simp only [Machine.step, hnext, hA7, hfd, Syscall.tryFrom]
    simp [Memory.read_snd]
  | some calls =>
    simp only [Machine.step, hnext, hA7, hfd, Syscall.tryFrom]
    simp [Memory.read_snd]

/-- Witness for the Write-syscall claim: running the hello machine's
first step appends exactly the five bytes of `"hello"` as one call. -/
theorem ecall_write_appends_witness :
    helloMachine.step =
      .ok { helloMachine with
            pc := 4, stdout := some [[104, 101, 108, 108, 111]] } := by
  have h := ecall_write_appends helloMachine
    ⟨.ECall, .X0, .X0, .X0, 0⟩ helloMachine (by decide) rfl rfl rfl
  exact h.trans (by decide)

/-- Counterexample to claim C5 as stated: on the machine whose first
instruction is an ECall with the default (unknown) syscall number 0 in
A7, `run` returns the unknown-syscall error, yet the returned state has
pc = 4 while the initial pc was 0 — the pc advance, a state mutation of
the failing cycle, has been applied before the error aborted the cycle,
so "no partial effects of the failing cycle are applied to the
Machine's state" is false for the unknown-syscall error. -/
theorem fault_partial_effect_counterexample :
    Machine.run 10 ecallFaultMachine =
      .err (.SyscallUnknown 0) { ecallFaultMachine with pc := 4 } ∧
    ecallFaultMachine.pc = 0 :=
  ⟨by decide, rfl⟩

/-- Claim C5 (amended): whenever a fetch-decode-execute cycle ends in an
error, the malformed instruction is not executed — the failing cycle
applies no register, memory, or sink mutations; for the decode errors
(unknown opcode, unknown register, immediate failure) the program
counter is also untouched, while for the unknown-syscall error the
program counter has already been advanced past the ECall when the error
aborts the cycle. (Prior cycles' mutations remain committed: `run`
threads the machine state unchanged from the last completed step into
the error result.) -/
theorem fault_applies_no_effects (m : Machine) (e : Error) (mf : Machine)
    (h : m.step = .fault e mf) :
    mf.regs = m.regs ∧ mf.mem = m.mem ∧ mf.stdout = m.stdout ∧
    ((∃ w, e = .SyscallUnknown w) → mf.pc = (m.pc + 4) % 2 ^ 32) ∧
    ((∀ w, e ≠ .SyscallUnknown w) → mf.pc = m.pc) := by
  have hsnd := Machine.next_snd m
  cases hres : m.next.1 with
  | error e0 =>
    have hn : m.next = (.error e0, m) := Prod.ext_iff.mpr ⟨hres, hsnd⟩
    unfold Machine.step at h
    rw [hn] at h
    have h' : StepResult.fault e0 m = .fault e mf := h
    injection h' with he hm
    subst hm
    subst he
    refine ⟨rfl, rfl, rfl, ?_, fun _ => rfl⟩
    rintro ⟨w, rfl⟩
    rcases Instruction.tryFrom_error_shape _ _ hres with hshape | hshape <;>
      exact Error.noConfusion hshape
  | ok instruction =>
    have hn : m.next = (.ok instruction, m) := Prod.ext_iff.mpr ⟨hres, hsnd⟩
    unfold Machine.step at h
    rw [hn] at h
    obtain ⟨op, rdf, rs1f, rs2f, immf⟩ := instruction
    cases op with
    | LoadImmediate => exact StepResult.noConfusion h
    | Add => exact StepResult.noConfusion h
    | EBreak => exact StepResult.noConfusion h
    | ECall =>
      dsimp only at h
      cases hsys : Syscall.tryFrom (m.regs.get RegisterID.A7) with
      | error e1 =>
        rw [hsys] at h
        have h' : StepResult.fault e1
            { m with pc := (m.pc + 4) % 2 ^ 32 } = .fault e mf := h
        injection h' with he hm
        subst hm
        subst he
        refine ⟨rfl, rfl, rfl, fun _ => rfl, ?_⟩
        intro hall
        exact absurd (Syscall.tryFrom_error_syscall _ _ hsys) (hall _)
      | ok s =>
        cases s
        rw [hsys] at h
        dsimp only at h
        by_cases hfd : m.regs.get RegisterID.A0 = 1
        · rw [if_pos hfd] at h
          cases hout : m.stdout with
          | none =>
            rw [hout] at h
            exact StepResult.noConfusion h
          | some calls =>
            rw [hout] at h
            exact StepResult.noConfusion h
        · rw [if_neg hfd] at h
          exact StepResult.noConfusion h

/-- Witness for the amended fault claim at the unknown-syscall machine:
the faulting step preserves registers, memory and sink, and advances pc
by 4. -/
theorem fault_applies_no_effects_witness :
    ({ ecallFaultMachine with pc := 4 } : Machine).regs =
        ecallFaultMachine.regs ∧
    ({ ecallFaultMachine with pc := 4 } : Machine).mem =
        ecallFaultMachine.mem ∧
    ({ ecallFaultMachine with pc := 4 } : Machine).stdout =
        ecallFaultMachine.stdout ∧
    ((∃ w, Error.SyscallUnknown 0 = Error.SyscallUnknown w) →
      ({ ecallFaultMachine with pc := 4 } : Machine).pc =
        (ecallFaultMachine.pc + 4) % 2 ^ 32) ∧
    ((∀ w, Error.SyscallUnknown 0 ≠ Error.SyscallUnknown w) →
      ({ ecallFaultMachine with pc := 4 } : Machine).pc =
        ecallFaultMachine.pc) :=
  fault_applies_no_effects ecallFaultMachine (.SyscallUnknown 0)
    { ecallFaultMachine with pc := 4 } (by decide)

end RMachine
